import Mathlib

/-!
Verification of the zapatos schema-to-type compiler (`src/generate/tables.ts`
together with the `tsForConfig` driver).  The TypeScript source is shallowly
embedded: catalog query results are explicit data, the mutable custom-type
registry is threaded as explicit state, and the async/failure behaviour of a
run is modelled by an `Except` result together with an explicit event trace.
-/

/-- Kind of a relation, `'table' | 'mview'` in the source. -/
inductive RelKind where
  | table
  | mview
deriving DecidableEq, Repr

/-- `interface Relation { name: string; type: 'table' | 'mview' }`. -/
structure Relation where
  name : String
  type : RelKind
deriving DecidableEq, Repr

/-- One row of the column-introspection query in `columnsForRelation`. -/
structure ColumnRow where
  column : String
  isNullable : Bool
  isGenerated : Bool
  hasDefault : Bool
  udtName : String
  domainName : Option String
deriving DecidableEq, Repr

/-- A per-column override entry of `config.columnOptions`, with value
`{ insert?: 'optional' | 'excluded', update?: 'excluded' }`. -/
structure ColumnOption where
  insert : Option String
  update : Option String
deriving DecidableEq, Repr

/-- Include/exclude rule of a schema: the `'*'` sentinel or an explicit
name list. -/
inductive Rule where
  | star
  | list (names : List String)
deriving DecidableEq, Repr

/-- The per-schema rule set `{ include, exclude }` (fields renamed `incl` /
`excl` because `include` is a Lean keyword). -/
structure SchemaRules where
  incl : Rule
  excl : Rule
deriving DecidableEq, Repr

/-- `config.customTypesTransform`: one of the three named strategies or a
user-supplied function. -/
inductive CustomTypesTransform where
  | my_type
  | pgMyType
  | pgMy_type
  | custom (f : String → String)

/-- The parts of `CompleteConfig` the compiler core reads.  `schemas` is the
insertion-ordered entry list of the `schemas` object; `columnOptions` is the
relation-name-keyed (including `"*"`) table of per-column overrides. -/
structure CompleteConfig where
  schemas : List (String × SchemaRules)
  columnOptions : List (String × List (String × ColumnOption))
  customTypesTransform : CustomTypesTransform

/-- `interface CustomTypes { [name: string]: string }`, the shared mutable
registry, as an insertion-ordered association list with unique keys. -/
abbrev CustomTypes := List (String × String)

/-- Association-list lookup, modelling JS property access `m[k]`. -/
def lookupA {α : Type} : List (String × α) → String → Option α
  | [], _ => none
  | p :: rest, k => if p.1 = k then some p.2 else lookupA rest k

/-- JS property assignment `m[k] = v` on a string-keyed object: overwrite the
value if the key is present (keeping its position), else append. -/
def setKey : CustomTypes → String → String → CustomTypes
  | [], k, v => [(k, v)]
  | p :: rest, k, v => if p.1 = k then (p.1, v) :: rest else p :: setKey rest k v

/-- `Array.prototype.indexOf` result on a string array: first index of `x`,
or `-1` when absent. -/
def jsIndexOfAux (x : String) : List String → Int → Int
  | [], _ => -1
  | y :: ys, i => if y = x then i else jsIndexOfAux x ys (i + 1)

/-- `l.indexOf x` for a JS string array. -/
def jsIndexOf (l : List String) (x : String) : Int :=
  jsIndexOfAux x l 0

/-- JS `\w` word characters `[A-Za-z0-9_]`. -/
def isWordChar (c : Char) : Bool :=
  c.isAlphanum || c == '_'

/-- `customType.replace(/\W+/g, '')`. -/
def legalise (cs : List Char) : List Char :=
  cs.filter isWordChar

/-- Worker for `customType.replace(/\W+/g, '_')`: the flag records whether we
are inside a non-word run that has already emitted its `'_'`. -/
def underscoreGo : Bool → List Char → List Char
  | _, [] => []
  | inRun, c :: cs =>
    if isWordChar c then c :: underscoreGo false cs
    else if inRun then underscoreGo true cs
    else '_' :: underscoreGo true cs

/-- `customType.replace(/\W+/g, '_')`. -/
def underscored (cs : List Char) : List Char :=
  underscoreGo false cs

/-- `s.replace(/_[^_]/g, m => m.charAt(1).toUpperCase())`: a left-to-right,
non-overlapping scan replacing each underscore-followed-by-non-underscore
pair with the uppercased second character. -/
def camelGo : List Char → List Char
  | [] => []
  | '_' :: c :: cs => if c == '_' then '_' :: camelGo (c :: cs) else c.toUpper :: camelGo cs
  | c :: cs => c :: camelGo cs

/-- `charAt(0).toUpperCase() + slice(1)`. -/
def capitalizeFirst : List Char → List Char
  | [] => []
  | c :: cs => c.toUpper :: cs

/-- `transformCustomType` from the source: the four naming strategies. -/
def transformCustomType (customType : String) (config : CompleteConfig) : String :=
  let underscoredType := String.mk (underscored customType.data)
  let legalisedType := String.mk (legalise customType.data)
  match config.customTypesTransform with
  | CustomTypesTransform.my_type => legalisedType
  | CustomTypesTransform.pgMyType => String.mk (camelGo (("Pg_" ++ legalisedType).data))
  | CustomTypesTransform.pgMy_type => "Pg" ++ String.mk (capitalizeFirst underscoredType.data)
  | CustomTypesTransform.custom f => f customType

/-- The `columnOptions` resolution for one column:
`(config.columnOptions[rel.name] && config.columnOptions[rel.name][column])
 ?? (config.columnOptions["*"] && config.columnOptions["*"][column])`. -/
def jsColumnOptions (co : List (String × List (String × ColumnOption)))
    (relName column : String) : Option ColumnOption :=
  ((lookupA co relName).bind (fun m => lookupA m column)).orElse
    (fun _ => (lookupA co "*").bind (fun m => lookupA m column))

/-- Optional chaining `columnOptions?.insert`. -/
def coInsert (o : Option ColumnOption) : Option String :=
  o.bind ColumnOption.insert

/-- Optional chaining `columnOptions?.update`. -/
def coUpdate (o : Option ColumnOption) : Option String :=
  o.bind ColumnOption.update

/-- `isInsertable = !isGenerated && columnOptions?.insert !== 'excluded'`. -/
def isInsertable (row : ColumnRow) (opts : Option ColumnOption) : Bool :=
  !row.isGenerated && !(coInsert opts == some "excluded")

/-- `isUpdatable = !isGenerated && columnOptions?.update !== 'excluded'`. -/
def isUpdatable (row : ColumnRow) (opts : Option ColumnOption) : Bool :=
  !row.isGenerated && !(coUpdate opts == some "excluded")

/-- `insertablyOptional = isNullable || hasDefault ||
columnOptions?.insert === 'optional' ? '?' : ''`. -/
def insertablyOptional (row : ColumnRow) (opts : Option ColumnOption) : String :=
  if row.isNullable || row.hasDefault || (coInsert opts == some "optional") then "?" else ""

/-- The 4-case classification of lines 108-123 of the source: `ts` stands for
`udtName => tsTypeForPgType(udtName, enums)`.  Returns the resolved type
expression for the column and the updated registry. -/
def resolveType (config : CompleteConfig) (ts : String → String) (row : ColumnRow)
    (customTypes : CustomTypes) : String × CustomTypes :=
  let type := ts row.udtName
  if type = "any" ∨ row.domainName ≠ none then
    let customType := row.domainName.getD row.udtName
    let prefixedCustomType := transformCustomType customType config
    ("c." ++ prefixedCustomType, setKey customTypes prefixedCustomType type)
  else
    (type, customTypes)

/-- The four per-role field lists plus the registry, accumulated by the
`rows.forEach` loop of `definitionForTableInSchema`. -/
structure TableAccum where
  customTypes : CustomTypes
  selectables : List String
  whereables : List String
  insertables : List String
  updatables : List String

/-- One iteration of the `rows.forEach` loop: classify the column and push
the per-role field declarations. -/
def accumStep (config : CompleteConfig) (relName : String) (ts : String → String)
    (acc : TableAccum) (row : ColumnRow) : TableAccum :=
  let type0 := ts row.udtName
  let columnOptions := jsColumnOptions config.columnOptions relName row.column
  let orNull := if row.isNullable then " | null" else ""
  let orDateString :=
    if type0 = "Date" then " | db.DateString"
    else if type0 = "Date[]" then " | db.DateString[]" else ""
  let orDefault := if row.isNullable || row.hasDefault then " | db.DefaultType" else ""
  let rt := resolveType config ts row acc.customTypes
  let type := rt.1
  let basicWhereableTypes :=
    type ++ " | db.Parameter<" ++ type ++ ">" ++ orDateString ++
      " | db.SQLFragment | db.ParentColumn"
  let basicInsertableTypes :=
    type ++ " | db.Parameter<" ++ type ++ ">" ++ orDateString ++ orNull ++ orDefault ++
      " | db.SQLFragment"
  { customTypes := rt.2
    selectables := acc.selectables ++ [row.column ++ ": " ++ type ++ orNull ++ ";"]
    whereables := acc.whereables ++
      [row.column ++ "?: " ++ basicWhereableTypes ++ " | db.SQLFragment<any, " ++
        basicWhereableTypes ++ ">;"]
    insertables := acc.insertables ++
      (if isInsertable row columnOptions then
        [row.column ++ insertablyOptional row columnOptions ++ ": " ++
          basicInsertableTypes ++ ";"]
      else [])
    updatables := acc.updatables ++
      (if isUpdatable row columnOptions then
        [row.column ++ "?: " ++ basicInsertableTypes ++ " | db.SQLFragment<any, " ++
          basicInsertableTypes ++ ">;"]
      else []) }

/-- `Array.prototype.join(sep)`. -/
def joinSep (sep : String) : List String → String
  | [] => ""
  | [x] => x
  | x :: y :: xs => x ++ sep ++ joinSep sep (y :: xs)

/-- The `UniqueIndex` union expression: the `' | '`-joined quoted index names,
or `never` when there are none. -/
def uniqueIndexType (uniqueIndexes : List String) : String :=
  if uniqueIndexes.length > 0 then
    joinSep " | " (uniqueIndexes.map (fun ui => "\x27" ++ ui ++ "\x27"))
  else "never"

/-- The part of the `tableDef` template literal before the `UniqueIndex`
member (lines 147-162 of the source). -/
def tableDefPre (relName : String) (acc : TableAccum) : String :=
  "\nexport namespace " ++ relName ++ " \x7b\n  export type Table = \x27" ++ relName ++
    "\x27;\n  export interface Selectable \x7b\n    " ++
    joinSep "\n    " acc.selectables ++
    "\n  \x7d\n  export interface Whereable \x7b\n    " ++
    joinSep "\n    " acc.whereables ++
    "\n  \x7d\n  export interface Insertable \x7b\n    " ++
    joinSep "\n    " acc.insertables ++
    "\n  \x7d\n  export interface Updatable \x7b\n    " ++
    joinSep "\n    " acc.updatables ++
    "\n  \x7d\n  export interface JSONSelectable extends JSONSelectableFromSelectable<Selectable> \x7b \x7d\n  "

/-- The part of the `tableDef` template literal after the `UniqueIndex`
member (lines 166-170 of the source). -/
def tableDefPost : String :=
  "\n  export type Column = keyof Selectable;\n  export type OnlyCols<T extends readonly Column[]> = Pick<Selectable, T[number]>;\n  export type SQLExpression = db.GenericSQLExpression | db.ColumnNames<Updatable | (keyof Updatable)[]> | db.ColumnValues<Updatable> | Table | Whereable | Column;\n  export type SQL = SQLExpression | SQLExpression[];\n\x7d"

/-- The `tableDef` template literal of `definitionForTableInSchema`
(lines 147-170 of the source). -/
def tableDefText (relName : String) (acc : TableAccum) (uniqueIndexes : List String) : String :=
  tableDefPre relName acc ++
    ("export type UniqueIndex = " ++ uniqueIndexType uniqueIndexes ++ ";") ++
    tableDefPost

/-- The pure core of `definitionForTableInSchema`: fold the classifier over
the already-fetched column rows and render the relation block. -/
def tableDefFor (config : CompleteConfig) (ts : String → String) (relName : String)
    (rows : List ColumnRow) (uniqueIndexes : List String) (customTypes : CustomTypes) :
    CustomTypes × String :=
  let acc := rows.foldl (accumStep config relName ts)
    { customTypes := customTypes, selectables := [], whereables := [],
      insertables := [], updatables := [] }
  (acc.customTypes, tableDefText relName acc uniqueIndexes)

/-- Code-unit comparison key of a string (JS default `sort()` compares
strings by their code units; all strings involved here are in the BMP, where
code points and UTF-16 code units agree). -/
def jsKey (s : String) : List Nat :=
  s.data.map Char.toNat

/-- The JS default string ordering. -/
def jsLe (a b : String) : Prop :=
  jsKey a ≤ jsKey b

instance : DecidableRel jsLe := fun a b =>
  inferInstanceAs (Decidable (jsKey a ≤ jsKey b))

instance : IsTrans String jsLe :=
  ⟨fun _ _ _ hab hbc => le_trans hab hbc⟩

instance : IsTotal String jsLe :=
  ⟨fun a b => le_total (jsKey a) (jsKey b)⟩

/-- `Array.prototype.sort()` with no comparator on a string array. -/
def jsSortStrings (l : List String) : List String :=
  List.insertionSort jsLe l

/-- Case-insensitive string ordering (used to state what the spec claims
about relation-block ordering). -/
def ciLe (a b : String) : Prop :=
  (a.data.map Char.toLower).map Char.toNat ≤ (b.data.map Char.toLower).map Char.toNat

instance : DecidableRel ciLe := fun a b =>
  inferInstanceAs
    (Decidable ((a.data.map Char.toLower).map Char.toNat ≤ (b.data.map Char.toLower).map Char.toNat))

/-- The per-schema relation filter (`tables = rules.exclude === '*' ? [] :
(await relationsInSchema(...)).filter(include).filter(exclude)`). -/
def tablesForSchema (rules : SchemaRules) (rels : List Relation) : List Relation :=
  match rules.excl with
  | Rule.star => []
  | Rule.list ex =>
    (rels.filter (fun rel =>
        match rules.incl with
        | Rule.star => true
        | Rule.list inc => decide (jsIndexOf inc rel.name ≥ 0))).filter
      (fun rel => decide (jsIndexOf ex rel.name < 0))

/-- `mappedUnion` from the source. -/
def mappedUnion (arr : List Relation) (fn : String → String) : String :=
  if arr.length = 0 then "any" else joinSep " | " (arr.map (fun rel => fn rel.name))

/-- The fixed role list of the `ForTable` lookup-type loop. -/
def thingables : List String :=
  ["Selectable", "Whereable", "Insertable", "Updatable", "UniqueIndex", "Column", "SQL"]

/-- `crossTableTypesForTables` from the source. -/
def crossTableTypesForTables (relations : List Relation) : String :=
  (if relations.length = 0 then
    "\n// \x60never\x60 rather than \x60any\x60 types would be more accurate in this no-tables case, but they stop \x60shortcuts.ts\x60 compiling\n"
  else "") ++
  "\nexport type Table = " ++ mappedUnion relations (fun name => name ++ ".Table") ++ ";" ++
  "\nexport type Selectable = " ++ mappedUnion relations (fun name => name ++ ".Selectable") ++ ";" ++
  "\nexport type Whereable = " ++ mappedUnion relations (fun name => name ++ ".Whereable") ++ ";" ++
  "\nexport type Insertable = " ++ mappedUnion relations (fun name => name ++ ".Insertable") ++ ";" ++
  "\nexport type Updatable = " ++ mappedUnion relations (fun name => name ++ ".Updatable") ++ ";" ++
  "\nexport type UniqueIndex = " ++ mappedUnion relations (fun name => name ++ ".UniqueIndex") ++ ";" ++
  "\nexport type Column = " ++ mappedUnion relations (fun name => name ++ ".Column") ++ ";" ++
  "\nexport type AllTables = [" ++
    joinSep ", " ((relations.filter (fun rel => rel.type == RelKind.table)).map
      (fun rel => rel.name ++ ".Table")) ++ "];" ++
  "\nexport type AllMaterializedViews = [" ++
    joinSep ", " ((relations.filter (fun rel => rel.type == RelKind.mview)).map
      (fun rel => rel.name ++ ".Table")) ++ "];" ++
  "\n\n" ++
  String.join (thingables.map (fun thingable =>
    "\nexport type " ++ thingable ++ "ForTable<T extends Table> = " ++
    (if relations.length = 0 then "any"
     else "\x7b" ++
       String.join (relations.map (fun rel =>
         "\n  " ++ rel.name ++ ": " ++ rel.name ++ "." ++ thingable ++ ";")) ++
       "\n\x7d[T]") ++ ";\n"))

/-- Modelled from the spec: the collaborators of the core that live outside
`src/generate/tables.ts`.  `tsType schema udt` stands for
`tsTypeForPgType(udt, enums)` with `enums = enumDataForSchema(schema)` — a
pure mapping from a catalog type name to a language type name that yields the
unknown sentinel `"any"` when the type is not recognized; `header` is the
opaque banner text prepended to the output file. -/
structure Env where
  tsType : String → String → String
  header : String

/-- One observable resource/query event of a run. -/
inductive Event where
  | acquire
  | relQuery (schema : String)
  | enumQuery (schema : String)
  | colQuery (rel schema : String)
  | idxQuery (rel : String)
  | release
deriving DecidableEq, Repr

/-- Whether an event is a catalog query (as opposed to pool acquisition or
release). -/
def Event.isQuery : Event → Bool
  | Event.acquire => false
  | Event.release => false
  | _ => true

/-- The catalog oracle, with each query allowed to reject.  `enumText s` is
the rendered result of `enumTypesForEnumData(await enumDataForSchema(s))`,
consumed opaquely (enum discovery is outside the core). -/
structure FCatalog where
  relations : String → Except Unit (List Relation)
  columns : Relation → String → Except Unit (List ColumnRow)
  uniqueIndexes : String → Except Unit (List String)
  enumText : String → Except Unit String

/-- `definitionForTableInSchema`: fetch the column rows, fold the classifier,
fetch the unique-index names, render the block.  Fails if either query
rejects; the trace records the queries issued. -/
def definitionForTableInSchema (config : CompleteConfig) (ts : String → String)
    (fcat : FCatalog) (rel : Relation) (schemaName : String) (customTypes : CustomTypes) :
    List Event × Except Unit (CustomTypes × String) :=
  match fcat.columns rel schemaName with
  | Except.error e => ([Event.colQuery rel.name schemaName], Except.error e)
  | Except.ok rows =>
    match fcat.uniqueIndexes rel.name with
    | Except.error e =>
      ([Event.colQuery rel.name schemaName, Event.idxQuery rel.name], Except.error e)
    | Except.ok uniqueIndexes =>
      ([Event.colQuery rel.name schemaName, Event.idxQuery rel.name],
        Except.ok (tableDefFor config ts rel.name rows uniqueIndexes customTypes))

/-- `await Promise.all(tables.map(definitionForTableInSchema(...)))`, with the
shared registry threaded through and the run aborting on the first rejected
query. -/
def runTables (config : CompleteConfig) (ts : String → String) (fcat : FCatalog)
    (schemaName : String) (customTypes : CustomTypes) :
    List Relation → List Event × Except Unit (CustomTypes × List String)
  | [] => ([], Except.ok (customTypes, []))
  | rel :: rels =>
    match definitionForTableInSchema config ts fcat rel schemaName customTypes with
    | (tr, Except.error e) => (tr, Except.error e)
    | (tr, Except.ok (ct1, d)) =>
      match runTables config ts fcat schemaName ct1 rels with
      | (tr2, Except.error e) => (tr ++ tr2, Except.error e)
      | (tr2, Except.ok (ct2, ds)) => (tr ++ tr2, Except.ok (ct2, d :: ds))

/-- The `schemaDef` template of `tsForConfig` (lines 271-275 of the source):
note the `tableDefs.sort()` before joining. -/
def schemaDefText (schemaName enumsText : String) (defs : List String) : String :=
  "\n/* === schema: " ++ schemaName ++ " === */\n" ++
  "\n/* --- enums --- */\n" ++ enumsText ++
  "\n\n/* --- tables --- */\n" ++ joinSep "\n" (jsSortStrings defs)

/-- Result of processing one schema: its rendered block and its (filtered)
relation list. -/
structure SchemaOut where
  schemaDef : String
  tables : List Relation

/-- Per-schema processing of `tsForConfig`: relation listing (skipped when
`exclude === '*'`), include/exclude filtering, enum rendering, and the
per-relation definitions. -/
def runSchema (config : CompleteConfig) (env : Env) (fcat : FCatalog)
    (customTypes : CustomTypes) (schemaName : String) (rules : SchemaRules) :
    List Event × Except Unit (CustomTypes × SchemaOut) :=
  match rules.excl with
  | Rule.star =>
    match fcat.enumText schemaName with
    | Except.error e => ([Event.enumQuery schemaName], Except.error e)
    | Except.ok enumsText =>
      ([Event.enumQuery schemaName],
        Except.ok (customTypes,
          { schemaDef := schemaDefText schemaName enumsText [], tables := [] }))
  | Rule.list _ =>
    match fcat.relations schemaName with
    | Except.error e => ([Event.relQuery schemaName], Except.error e)
    | Except.ok rels =>
      let tables := tablesForSchema rules rels
      match fcat.enumText schemaName with
      | Except.error e =>
        ([Event.relQuery schemaName, Event.enumQuery schemaName], Except.error e)
      | Except.ok enumsText =>
        match runTables config (env.tsType schemaName) fcat schemaName customTypes tables with
        | (tr, Except.error e) =>
          ([Event.relQuery schemaName, Event.enumQuery schemaName] ++ tr, Except.error e)
        | (tr, Except.ok (ct1, defs)) =>
          ([Event.relQuery schemaName, Event.enumQuery schemaName] ++ tr,
            Except.ok (ct1,
              { schemaDef := schemaDefText schemaName enumsText defs, tables := tables }))

/-- `await Promise.all(Object.keys(schemas).map(...))` over the configured
schemas, threading the shared registry. -/
def runSchemas (config : CompleteConfig) (env : Env) (fcat : FCatalog)
    (customTypes : CustomTypes) :
    List (String × SchemaRules) → List Event × Except Unit (CustomTypes × List SchemaOut)
  | [] => ([], Except.ok (customTypes, []))
  | (s, rules) :: rest =>
    match runSchema config env fcat customTypes s rules with
    | (tr, Except.error e) => (tr, Except.error e)
    | (tr, Except.ok (ct1, out)) =>
      match runSchemas config env fcat ct1 rest with
      | (tr2, Except.error e) => (tr ++ tr2, Except.error e)
      | (tr2, Except.ok (ct2, outs)) => (tr ++ tr2, Except.ok (ct2, out :: outs))

/-- Split a character list at newlines (`String.split` on `'\n'`). -/
def splitLines : List Char → List (List Char)
  | [] => [[]]
  | c :: cs =>
    let r := splitLines cs
    if c = '\n' then [] :: r
    else
      match r with
      | [] => [[c]]
      | l :: ls => (c :: l) :: ls

/-- Whether `declarations.replace(/^(?=[ \t]*\S)/gm, '  ')` indents a line:
its first character after leading spaces/tabs exists and is not whitespace. -/
def lineNeedsIndent (l : List Char) : Bool :=
  match l.dropWhile (fun c => c == ' ' || c == '\t') with
  | [] => false
  | c :: _ => !(c == ' ' || c == '\t' || c == '\n' || c == '\r' || c == '\x0c' || c == '\x0b')

/-- `declarations.replace(/^(?=[ \t]*\S)/gm, '  ')`. -/
def jsIndent (s : String) : String :=
  joinSep "\n" ((splitLines s.data).map
    (fun l => if lineNeedsIndent l then "  " ++ String.mk l else String.mk l))

/-- `declareModule` from the source. -/
def declareModule (module declarations : String) : String :=
  "\ndeclare module \x27" ++ module ++ "\x27 \x7b\n" ++ jsIndent declarations ++ "\n\x7d\n"

/-- `versionCanary` from the source (with `canaryVersion = 101`). -/
def versionCanary : String :=
  "\n// got a type error on schemaVersionCanary below? update by running \x60npx zapatos\x60\nexport interface schemaVersionCanary extends db.SchemaVersionCanary \x7b version: 101 \x7d\n"

/-- `customTypeHeader` from the source. -/
def customTypeHeader : String :=
  "/*\n** Please edit this file as needed **\nIt\x27s been generated by Zapatos as a custom type definition placeholder, and won\x27t be overwritten\n*/\n"

/-- `sourceFilesForCustomTypes` from the source, over the entries of the
registry in insertion order. -/
def sourceFilesForCustomTypes (customTypes : CustomTypes) : List (String × String) :=
  customTypes.map (fun p =>
    (p.1, customTypeHeader ++ declareModule "zapatos/custom"
      ((if p.2 = "db.JSONValue" then "import type * as db from \x27zapatos/db\x27;\n" else "") ++
        "export type " ++ p.1 ++ " = " ++ p.2 ++
        ";  // replace with your custom type or interface as desired")))

/-- Models the `(a, b) => a.name.localeCompare(b.name)` comparator used to
sort `allTables`.  The exact collation of `localeCompare` is
environment-defined; we model the common default as case-insensitive primary
order with the raw code units as tie-break.  No claim depends on its exact
shape. -/
def localeNameLe (a b : Relation) : Prop :=
  ciLe a.name b.name ∧ (ciLe b.name a.name → jsLe a.name b.name)

instance : DecidableRel localeNameLe := fun a b =>
  inferInstanceAs (Decidable (ciLe a.name b.name ∧ (ciLe b.name a.name → jsLe a.name b.name)))

/-- The two output artifacts of a successful run. -/
structure Output where
  ts : String
  customTypeSourceFiles : List (String × String)
deriving DecidableEq

/-- Lines 280-295 of the source: sort the schema blocks, flatten and sort the
relation lists, and assemble the declaration text. -/
def assembleOutput (env : Env) (customTypes : CustomTypes) (outs : List SchemaOut) : Output :=
  let schemaDefs := jsSortStrings (outs.map SchemaOut.schemaDef)
  let allTables := List.insertionSort localeNameLe ((outs.map SchemaOut.tables).flatten)
  let hasCustomTypes := customTypes.length > 0
  { ts := env.header ++ declareModule "zapatos/schema"
      ("\nimport type * as db from \x27zapatos/db\x27;\n" ++
        (if hasCustomTypes then "import type * as c from \x27zapatos/custom\x27;\n" else "") ++
        versionCanary ++
        joinSep "\n\n" schemaDefs ++
        "\n\n/* === cross-table types === */\n" ++
        crossTableTypesForTables allTables)
    customTypeSourceFiles := sourceFilesForCustomTypes customTypes }

/-- `tsForConfig`: acquire the pool, process every configured schema, and
release the pool after the output is assembled.  A rejected catalog query
aborts the run. -/
def tsForConfig (config : CompleteConfig) (env : Env) (fcat : FCatalog) :
    List Event × Option Output :=
  match runSchemas config env fcat [] config.schemas with
  | (tr, Except.error _) => (Event.acquire :: tr, none)
  | (tr, Except.ok (ct, outs)) =>
    (Event.acquire :: tr ++ [Event.release], some (assembleOutput env ct outs))

/-- Follows the spec's words, for comparison with the source expression: the
union of the returned index names as quoted string literals, joined with
`' | '` in the catalog's return order. -/
def specUniqueIndexUnion : List String → String
  | [] => ""
  | [n] => "\x27" ++ n ++ "\x27"
  | n :: m :: ns => "\x27" ++ n ++ "\x27" ++ " | " ++ specUniqueIndexUnion (m :: ns)

/-- A small concrete base-type mapping standing in for `tsTypeForPgType`:
`text` is recognized, everything else is unknown. -/
def tsSimple : String → String :=
  fun u => if u = "text" then "string" else "any"

/-- A minimal concrete configuration: one schema `s` with include-everything /
exclude-nothing rules, no column overrides, `my_type` naming. -/
def cfgPlain : CompleteConfig :=
  { schemas := [("s", { incl := Rule.star, excl := Rule.list [] })]
    columnOptions := []
    customTypesTransform := CustomTypesTransform.my_type }

/-- A concrete environment for the concrete runs. -/
def envPlain : Env :=
  { tsType := fun _ => tsSimple, header := "" }

/-- An ordinary known-type column row. -/
def rowPlain : ColumnRow :=
  { column := "x", isNullable := false, isGenerated := false, hasDefault := false,
    udtName := "text", domainName := none }

/-- A domain-typed column over the known base type `text` (classification
case 3). -/
def rowD1 : ColumnRow :=
  { column := "x", isNullable := false, isGenerated := false, hasDefault := false,
    udtName := "text", domainName := some "d" }

/-- A domain-typed column over an unknown base type (classification case 4),
sharing the domain name `d` with `rowD1`. -/
def rowD2 : ColumnRow :=
  { column := "y", isNullable := false, isGenerated := false, hasDefault := false,
    udtName := "weird", domainName := some "d" }

/-- A generated column row. -/
def rowGen : ColumnRow :=
  { column := "id", isNullable := false, isGenerated := true, hasDefault := false,
    udtName := "text", domainName := none }

/-- The empty per-relation accumulator seeded with registry `ct`. -/
def emptyAccum (ct : CustomTypes) : TableAccum :=
  { customTypes := ct, selectables := [], whereables := [], insertables := [],
    updatables := [] }

/-- A catalog where every query succeeds: one schema with no relations. -/
def fcatOK : FCatalog :=
  { relations := fun _ => Except.ok []
    columns := fun _ _ => Except.ok []
    uniqueIndexes := fun _ => Except.ok []
    enumText := fun _ => Except.ok "" }

/-- `fcatOK` with every field eta-expanded through the original record:
pointwise equal to `fcatOK` but syntactically distinct. -/
def fcatOKEta : FCatalog :=
  { relations := fun s => fcatOK.relations s
    columns := fun r s => fcatOK.columns r s
    uniqueIndexes := fun n => fcatOK.uniqueIndexes n
    enumText := fun s => fcatOK.enumText s }

/-- A catalog whose relation-listing query rejects. -/
def fcatFailRel : FCatalog :=
  { relations := fun _ => Except.error ()
    columns := fun _ _ => Except.ok []
    uniqueIndexes := fun _ => Except.ok []
    enumText := fun _ => Except.ok "" }

/-- The `basicInsertableTypes` union for one column (computed with the
registry-independent resolved type). -/
def basicInsertableTypesFor (config : CompleteConfig) (ts : String → String)
    (row : ColumnRow) : String :=
  (resolveType config ts row []).1 ++ " | db.Parameter<" ++ (resolveType config ts row []).1 ++
    ">" ++
    (if ts row.udtName = "Date" then " | db.DateString"
     else if ts row.udtName = "Date[]" then " | db.DateString[]" else "") ++
    (if row.isNullable then " | null" else "") ++
    (if row.isNullable || row.hasDefault then " | db.DefaultType" else "") ++
    " | db.SQLFragment"

/-- Rules placing the relation name `t` on both the include and the exclude
list. -/
def rulesW : SchemaRules :=
  { incl := Rule.list ["t"], excl := Rule.list ["t"] }

/-- Column overrides with both a relation-specific (`t.c`) entry and wildcard
(`*.c`, `*.d`) entries. -/
def coW : List (String × List (String × ColumnOption)) :=
  [("t", [("c", { insert := some "excluded", update := none })]),
    ("*", [("c", { insert := none, update := some "excluded" }),
      ("d", { insert := none, update := some "excluded" })])]

theorem lookupA_setKey_self (ct : CustomTypes) (k v : String) :
    lookupA (setKey ct k v) k = some v := by
  induction ct with
  | nil => simp [setKey, lookupA]
  | cons p rest ih =>
    by_cases h : p.1 = k <;> simp [setKey, lookupA, h, ih]

theorem setKey_keys (ct : CustomTypes) (k v : String) :
    (setKey ct k v).map Prod.fst =
      if k ∈ ct.map Prod.fst then ct.map Prod.fst else ct.map Prod.fst ++ [k] := by
  induction ct with
  | nil => simp [setKey]
  | cons p rest ih =>
    by_cases h : p.1 = k
    · simp [setKey, h]
    · have hne : ¬ k = p.1 := fun hk => h hk.symm
      by_cases hm : k ∈ rest.map Prod.fst <;>
        simp [setKey, h, hm, ih, hne]

theorem resolveType_fst (config : CompleteConfig) (ts : String → String) (row : ColumnRow)
    (ct : CustomTypes) : (resolveType config ts row ct).1 = (resolveType config ts row []).1 := by
  by_cases h : ts row.udtName = "any" ∨ row.domainName ≠ none <;>
    simp [resolveType, h]

theorem jsIndexOfAux_not_mem (x : String) (l : List String) :
    ∀ i : Int, x ∉ l → jsIndexOfAux x l i = -1 := by
  induction l with
  | nil => intro i _; rfl
  | cons y ys ih =>
    intro i h
    have hy : ¬ y = x := fun hc => h (hc ▸ List.mem_cons_self y ys)
    simp [jsIndexOfAux, hy]
    exact ih (i + 1) (fun hc => h (List.mem_cons_of_mem y hc))

theorem jsIndexOfAux_mem (x : String) (l : List String) :
    ∀ i : Int, x ∈ l → i ≤ jsIndexOfAux x l i := by
  induction l with
  | nil => intro i h; cases h
  | cons y ys ih =>
    intro i h
    by_cases hy : y = x
    · simp [jsIndexOfAux, hy]
    · have : x ∈ ys := by
        rcases List.mem_cons.mp h with h1 | h1
        · exact absurd h1.symm hy
        · exact h1
      calc i ≤ i + 1 := by omega
        _ ≤ jsIndexOfAux x ys (i + 1) := ih (i + 1) this
        _ = jsIndexOfAux x (y :: ys) i := by simp [jsIndexOfAux, hy]

theorem jsIndexOf_neg_iff (l : List String) (x : String) :
    jsIndexOf l x < 0 ↔ x ∉ l := by
  constructor
  · intro h hm
    have := jsIndexOfAux_mem x l 0 hm
    simp only [jsIndexOf] at h
    omega
  · intro h
    simp [jsIndexOf, jsIndexOfAux_not_mem x l 0 h]

theorem jsIndexOf_nonneg_iff (l : List String) (x : String) :
    0 ≤ jsIndexOf l x ↔ x ∈ l := by
  constructor
  · intro h
    by_contra hm
    have := (jsIndexOf_neg_iff l x).mpr hm
    omega
  · intro h
    exact jsIndexOfAux_mem x l 0 h

theorem isInsertable_iff (row : ColumnRow) (opts : Option ColumnOption) :
    isInsertable row opts = true ↔
      (row.isGenerated = false ∧ coInsert opts ≠ some "excluded") := by
  simp [isInsertable, Bool.and_eq_true, Bool.not_eq_true']

theorem isUpdatable_iff (row : ColumnRow) (opts : Option ColumnOption) :
    isUpdatable row opts = true ↔
      (row.isGenerated = false ∧ coUpdate opts ≠ some "excluded") := by
  simp [isUpdatable, Bool.and_eq_true, Bool.not_eq_true']

theorem insertablyOptional_iff (row : ColumnRow) (opts : Option ColumnOption) :
    insertablyOptional row opts = "?" ↔
      (row.isNullable = true ∨ row.hasDefault = true ∨ coInsert opts = some "optional") := by
  constructor
  · intro hq
    by_contra hc
    push_neg at hc
    obtain ⟨h1, h2, h3⟩ := hc
    have hb : (coInsert opts == some "optional") = false := beq_eq_false_iff_ne.mpr h3
    have h1' : row.isNullable = false := Bool.eq_false_iff.mpr h1
    have h2' : row.hasDefault = false := Bool.eq_false_iff.mpr h2
    rw [insertablyOptional, h1', h2', hb] at hq
    exact absurd hq (by decide)
  · intro hc
    have hb : (row.isNullable || row.hasDefault || (coInsert opts == some "optional")) = true := by
      rcases hc with h | h | h <;> simp [h]
    simp [insertablyOptional, hb]

theorem uniqueIndexType_nonempty (l : List String) (h : l ≠ []) :
    uniqueIndexType l = specUniqueIndexUnion l := by
  induction l with
  | nil => exact absurd rfl h
  | cons n ns ih =>
    cases ns with
    | nil => simp [uniqueIndexType, specUniqueIndexUnion, joinSep]
    | cons m ms =>
      have hne : (m :: ms : List String) ≠ [] := by simp
      have h2 : joinSep " | " (List.map (fun ui => "\x27" ++ ui ++ "\x27") (m :: ms)) =
          specUniqueIndexUnion (m :: ms) := by
        have := ih hne
        rw [uniqueIndexType, if_pos (by simp)] at this
        exact this
      simp only [List.map_cons] at h2
      rw [uniqueIndexType, if_pos (by simp), List.map_cons, List.map_cons, joinSep,
        specUniqueIndexUnion, h2]

theorem defTable_events (config : CompleteConfig) (ts : String → String) (fcat : FCatalog)
    (rel : Relation) (schemaName : String) (ct : CustomTypes) :
    ∀ e ∈ (definitionForTableInSchema config ts fcat rel schemaName ct).1,
      e.isQuery = true := by
  intro e he
  unfold definitionForTableInSchema at he
  cases hc : fcat.columns rel schemaName with
  | error err => rw [hc] at he; simp at he; simp [he, Event.isQuery]
  | ok rows =>
    rw [hc] at he
    cases hu : fcat.uniqueIndexes rel.name with
    | error err =>
      rw [hu] at he
      simp at he
      rcases he with he | he <;> simp [he, Event.isQuery]
    | ok u =>
      rw [hu] at he
      simp at he
      rcases he with he | he <;> simp [he, Event.isQuery]

theorem runTables_events (config : CompleteConfig) (ts : String → String) (fcat : FCatalog)
    (schemaName : String) : ∀ (rels : List Relation) (ct : CustomTypes),
    ∀ e ∈ (runTables config ts fcat schemaName ct rels).1, e.isQuery = true := by
  intro rels
  induction rels with
  | nil => intro ct e he; simp [runTables] at he
  | cons rel rels ih =>
    intro ct e he
    unfold runTables at he
    split at he
    next tr err heq =>
      exact defTable_events config ts fcat rel schemaName ct e (by rw [heq]; exact he)
    next tr ct1 d heq =>
      split at he
      next tr2 err2 heq2 =>
        simp only [List.mem_append] at he
        rcases he with he | he
        · exact defTable_events config ts fcat rel schemaName ct e (by rw [heq]; exact he)
        · exact ih ct1 e (by rw [heq2]; exact he)
      next tr2 ct2 ds heq2 =>
        simp only [List.mem_append] at he
        rcases he with he | he
        · exact defTable_events config ts fcat rel schemaName ct e (by rw [heq]; exact he)
        · exact ih ct1 e (by rw [heq2]; exact he)

theorem runSchema_events (config : CompleteConfig) (env : Env) (fcat : FCatalog)
    (ct : CustomTypes) (schemaName : String) (rules : SchemaRules) :
    ∀ e ∈ (runSchema config env fcat ct schemaName rules).1, e.isQuery = true := by
  intro e he
  unfold runSchema at he
  split at he
  · -- exclude = star
    split at he
    next err heq => simp at he; simp [he, Event.isQuery]
    next enumsText heq => simp at he; simp [he, Event.isQuery]
  · -- exclude = list
    split at he
    next err heq => simp at he; simp [he, Event.isQuery]
    next rels heq =>
      split at he
      next err heq2 =>
        simp at he
        rcases he with he | he <;> simp [he, Event.isQuery]
      next enumsText heq2 =>
        simp only [] at he
        split at he
        next tr err heq3 =>
          simp only [List.cons_append, List.nil_append, List.mem_cons] at he
          rcases he with he | he | he
          · simp [he, Event.isQuery]
          · simp [he, Event.isQuery]
          · exact runTables_events config (env.tsType schemaName) fcat schemaName _ ct e
              (by rw [heq3]; exact he)
        next tr ct1 defs heq3 =>
          simp only [List.cons_append, List.nil_append, List.mem_cons] at he
          rcases he with he | he | he
          · simp [he, Event.isQuery]
          · simp [he, Event.isQuery]
          · exact runTables_events config (env.tsType schemaName) fcat schemaName _ ct e
              (by rw [heq3]; exact he)

theorem runSchemas_events (config : CompleteConfig) (env : Env) (fcat : FCatalog) :
    ∀ (schemas : List (String × SchemaRules)) (ct : CustomTypes),
    ∀ e ∈ (runSchemas config env fcat ct schemas).1, e.isQuery = true := by
  intro schemas
  induction schemas with
  | nil => intro ct e he; simp [runSchemas] at he
  | cons p rest ih =>
    intro ct e he
    rcases p with ⟨s, rules⟩
    unfold runSchemas at he
    split at he
    next tr err heq =>
      exact runSchema_events config env fcat ct s rules e (by rw [heq]; exact he)
    next tr ct1 out heq =>
      split at he
      next tr2 err2 heq2 =>
        simp only [List.mem_append] at he
        rcases he with he | he
        · exact runSchema_events config env fcat ct s rules e (by rw [heq]; exact he)
        · exact ih ct1 e (by rw [heq2]; exact he)
      next tr2 ct2 outs heq2 =>
        simp only [List.mem_append] at he
        rcases he with he | he
        · exact runSchema_events config env fcat ct s rules e (by rw [heq]; exact he)
        · exact ih ct1 e (by rw [heq2]; exact he)

/-- C3: classification is total and four-way exclusive.  If the domain is
absent and the base type is recognized, the mapped type is returned directly
and the registry is untouched; otherwise exactly one registry entry is
written under the transformed key (domain name if present, else base-type
name) whose placeholder value is the mapping result (the recognized mapped
type, or the unknown sentinel `any`), and the resolved column type is the
reference `c.<key>`. -/
theorem classification_four_cases (config : CompleteConfig) (ts : String → String)
    (row : ColumnRow) (ct : CustomTypes) :
    ((row.domainName = none ∧ ts row.udtName ≠ "any") →
      resolveType config ts row ct = (ts row.udtName, ct)) ∧
    ((row.domainName ≠ none ∨ ts row.udtName = "any") →
      ((resolveType config ts row ct).1 =
          "c." ++ transformCustomType (row.domainName.getD row.udtName) config ∧
        (resolveType config ts row ct).2 =
          setKey ct (transformCustomType (row.domainName.getD row.udtName) config)
            (ts row.udtName) ∧
        lookupA (resolveType config ts row ct).2
            (transformCustomType (row.domainName.getD row.udtName) config) =
          some (ts row.udtName) ∧
        (resolveType config ts row ct).2.map Prod.fst =
          (if transformCustomType (row.domainName.getD row.udtName) config ∈ ct.map Prod.fst
           then ct.map Prod.fst
           else ct.map Prod.fst ++
             [transformCustomType (row.domainName.getD row.udtName) config]))) := by
  constructor
  · rintro ⟨h1, h2⟩
    simp [resolveType, h1, h2]
  · intro h
    have hcond : ts row.udtName = "any" ∨ row.domainName ≠ none := h.symm
    simp only [resolveType]
    rw [if_pos hcond]
    exact ⟨rfl, rfl, lookupA_setKey_self ct _ _, setKey_keys ct _ _⟩

/-- C3 witness: a plain `text` column resolves directly with no registration,
and a domain `d` over `text` registers `d ↦ string` and resolves to `c.d`. -/
theorem classification_four_cases_witness :
    resolveType cfgPlain tsSimple rowPlain [] = ("string", []) ∧
    lookupA (resolveType cfgPlain tsSimple rowD1 []).2 (transformCustomType "d" cfgPlain) =
      some "string" := by
  constructor
  · exact (classification_four_cases cfgPlain tsSimple rowPlain []).1 ⟨rfl, by decide⟩
  · exact ((classification_four_cases cfgPlain tsSimple rowD1 []).2 (Or.inl (by decide))).2.2.1

/-- C1 counterexample: two columns of one run share the transformed key `d`
with different placeholders (`string` from a known base type, then `any`
from an unknown one); the second registration silently overwrites the first,
so the claimed register-exactly-once/no-overwrite invariant fails. -/
theorem registry_overwrite_cex :
    resolveType cfgPlain tsSimple rowD1 [] = ("c.d", [("d", "string")]) ∧
    resolveType cfgPlain tsSimple rowD2 [("d", "string")] = ("c.d", [("d", "any")]) ∧
    ("string" : String) ≠ "any" := by
  refine ⟨by decide, by decide, by decide⟩

/-- C1 amended: whenever a column falls in cases 2-4, its transformed key is
written to the shared registry with that column's placeholder type; a later
registration of the same key overwrites any earlier value (last write
wins). -/
theorem registry_last_write_wins (config : CompleteConfig) (ts : String → String)
    (ct : CustomTypes) (row : ColumnRow)
    (h : ts row.udtName = "any" ∨ row.domainName ≠ none) :
    lookupA (resolveType config ts row ct).2
      (transformCustomType (row.domainName.getD row.udtName) config) =
      some (ts row.udtName) := by
  simp only [resolveType]
  rw [if_pos h]
  exact lookupA_setKey_self ct _ _

/-- C1 amended witness: re-registering `d` over a registry already holding
`d ↦ string` leaves the later placeholder `any`. -/
theorem registry_last_write_wins_witness :
    lookupA (resolveType cfgPlain tsSimple rowD2 [("d", "string")]).2
      (transformCustomType "d" cfgPlain) = some "any" :=
  registry_last_write_wins cfgPlain tsSimple [("d", "string")] rowD2 (Or.inl (by decide))

/-- C10: the relation-specific `columnOptions` entry for a column takes
precedence over the wildcard entry; the wildcard is consulted only when the
relation-specific lookup yields nothing, and the two entries are never
merged (the result is exactly one of the two). -/
theorem columnOptions_wildcard_precedence
    (co : List (String × List (String × ColumnOption))) (relName column : String) :
    (∀ o : ColumnOption,
      (lookupA co relName).bind (fun m => lookupA m column) = some o →
        jsColumnOptions co relName column = some o) ∧
    ((lookupA co relName).bind (fun m => lookupA m column) = none →
      jsColumnOptions co relName column =
        (lookupA co "*").bind (fun m => lookupA m column)) := by
  constructor
  · intro o h
    simp [jsColumnOptions, h, Option.orElse]
  · intro h
    simp [jsColumnOptions, h, Option.orElse]

/-- C10 witness: with `t.c` overriding insert and `*.c` overriding update,
column `c` of relation `t` gets exactly the relation-specific entry (no
field merge), while column `d` falls through to the wildcard. -/
theorem columnOptions_wildcard_precedence_witness :
    jsColumnOptions coW "t" "c" = some { insert := some "excluded", update := none } ∧
    jsColumnOptions coW "t" "d" = (lookupA coW "*").bind (fun m => lookupA m "d") := by
  constructor
  · exact (columnOptions_wildcard_precedence coW "t" "c").1 _ (by decide)
  · exact (columnOptions_wildcard_precedence coW "t" "d").2 (by decide)

/-- C6: exclusion beats inclusion.  The exclude-everything sentinel yields an
empty relation list regardless of the include rule, and a relation named on
both the include and the exclude list is filtered out. -/
theorem include_exclude_precedence (rules : SchemaRules) (rels : List Relation) :
    (rules.excl = Rule.star → tablesForSchema rules rels = []) ∧
    (∀ (rel : Relation) (inc ex : List String),
      rules.incl = Rule.list inc → rules.excl = Rule.list ex →
      rel.name ∈ inc → rel.name ∈ ex → rel ∉ tablesForSchema rules rels) := by
  constructor
  · intro h
    simp [tablesForSchema, h]
  · intro rel inc ex hinc hex hmi hme hmem
    unfold tablesForSchema at hmem
    rw [hex] at hmem
    have hfil := (List.mem_filter.mp hmem).2
    have hlt : jsIndexOf ex rel.name < 0 := of_decide_eq_true hfil
    exact (jsIndexOf_neg_iff ex rel.name).mp hlt hme

/-- C6 witness: the relation `t`, listed in both the include and exclude
lists, is excluded; and `exclude = '*'` empties the schema even with an
explicit include list. -/
theorem include_exclude_precedence_witness :
    (⟨"t", RelKind.table⟩ : Relation) ∉ tablesForSchema rulesW [⟨"t", RelKind.table⟩] ∧
    tablesForSchema { incl := Rule.list ["t"], excl := Rule.star }
      [⟨"t", RelKind.table⟩] = [] := by
  constructor
  · exact (include_exclude_precedence rulesW [⟨"t", RelKind.table⟩]).2
      ⟨"t", RelKind.table⟩ ["t"] ["t"] rfl rfl (by decide) (by decide)
  · exact (include_exclude_precedence { incl := Rule.list ["t"], excl := Rule.star }
      [⟨"t", RelKind.table⟩]).1 rfl

/-- C8: the emitted `UniqueIndex` member is `never` when the catalog returns
no unique index names, otherwise the union of the quoted names in catalog
return order, and the relation block embeds exactly that expression. -/
theorem uniqueIndex_union (idxs : List String) (config : CompleteConfig)
    (ts : String → String) (relName : String) (rows : List ColumnRow) (ct : CustomTypes) :
    (idxs = [] → uniqueIndexType idxs = "never") ∧
    (idxs ≠ [] → uniqueIndexType idxs = specUniqueIndexUnion idxs) ∧
    (∃ pre post, (tableDefFor config ts relName rows idxs ct).2 =
      pre ++ ("export type UniqueIndex = " ++ uniqueIndexType idxs ++ ";") ++ post) := by
  refine ⟨?_, uniqueIndexType_nonempty idxs, ?_⟩
  · intro h
    subst h
    rfl
  · exact ⟨tableDefPre relName
      (List.foldl (accumStep config relName ts) (emptyAccum ct) rows), tableDefPost, rfl⟩

/-- C8 witness: zero indexes give `never`; the two indexes `idx_a`, `idx_b`
give the union of the two literals in catalog order. -/
theorem uniqueIndex_union_witness :
    uniqueIndexType ([] : List String) = "never" ∧
    uniqueIndexType ["idx_a", "idx_b"] = specUniqueIndexUnion ["idx_a", "idx_b"] ∧
    uniqueIndexType ["idx_a", "idx_b"] = "\x27idx_a\x27 | \x27idx_b\x27" := by
  refine ⟨(uniqueIndex_union [] cfgPlain tsSimple "t" [] []).1 rfl,
    (uniqueIndex_union ["idx_a", "idx_b"] cfgPlain tsSimple "t" [] []).2.1 (by decide),
    by decide⟩

set_option maxRecDepth 100000 in
/-- C7: with an empty relation list the cross-relation aggregate section
renders every union type (`Table`, `Selectable`, `Whereable`, `Insertable`,
`Updatable`, `UniqueIndex`, `Column`) and every `XForTable` lookup type as
`any`, never as `never`. -/
theorem crossTableTypes_empty_any :
    crossTableTypesForTables [] =
      "\n// \x60never\x60 rather than \x60any\x60 types would be more accurate in this no-tables case, but they stop \x60shortcuts.ts\x60 compiling\n\nexport type Table = any;\nexport type Selectable = any;\nexport type Whereable = any;\nexport type Insertable = any;\nexport type Updatable = any;\nexport type UniqueIndex = any;\nexport type Column = any;\nexport type AllTables = [];\nexport type AllMaterializedViews = [];\n\n\nexport type SelectableForTable<T extends Table> = any;\n\nexport type WhereableForTable<T extends Table> = any;\n\nexport type InsertableForTable<T extends Table> = any;\n\nexport type UpdatableForTable<T extends Table> = any;\n\nexport type UniqueIndexForTable<T extends Table> = any;\n\nexport type ColumnForTable<T extends Table> = any;\n\nexport type SQLForTable<T extends Table> = any;\n" := by
  rfl

/-- C9: the run is deterministic — two runs over pointwise-identical catalog
query results and identical configuration and environment produce identical
traces and byte-identical output. -/
theorem output_determinism (config : CompleteConfig) (env : Env) (fcat fcat' : FCatalog)
    (hrel : ∀ s, fcat.relations s = fcat'.relations s)
    (hcol : ∀ r s, fcat.columns r s = fcat'.columns r s)
    (hidx : ∀ n, fcat.uniqueIndexes n = fcat'.uniqueIndexes n)
    (henum : ∀ s, fcat.enumText s = fcat'.enumText s) :
    tsForConfig config env fcat = tsForConfig config env fcat' := by
  have hf : fcat = fcat' := by
    cases fcat
    cases fcat'
    simp only [FCatalog.mk.injEq]
    exact ⟨funext hrel, funext fun r => funext fun s => hcol r s, funext hidx, funext henum⟩
  rw [hf]

/-- C9 witness: two syntactically different but pointwise-equal catalogs give
the same run. -/
theorem output_determinism_witness :
    tsForConfig cfgPlain envPlain fcatOK = tsForConfig cfgPlain envPlain fcatOKEta :=
  output_determinism cfgPlain envPlain fcatOK fcatOKEta (fun _ => rfl) (fun _ _ => rfl)
    (fun _ => rfl) (fun _ => rfl)

/-- C5: per-column role membership.  Every column produces exactly one
read-shape and one filter-shape field; it yields an insert-shape field iff it
is not generated and not excluded from insert by override, that field
carrying the optional marker `?` iff the column is nullable, has a default,
or is marked optional by override; it yields an update-shape field iff it is
not generated and not excluded from update by override, and that field
always carries the optional marker.  In particular a generated column is
absent from both insert- and update-shape. -/
theorem role_shape_membership (config : CompleteConfig) (relName : String)
    (ts : String → String) (acc : TableAccum) (row : ColumnRow) :
    ((accumStep config relName ts acc row).selectables.length =
      acc.selectables.length + 1) ∧
    ((accumStep config relName ts acc row).whereables.length =
      acc.whereables.length + 1) ∧
    ((accumStep config relName ts acc row).insertables ≠ acc.insertables ↔
      (row.isGenerated = false ∧
        coInsert (jsColumnOptions config.columnOptions relName row.column) ≠
          some "excluded")) ∧
    ((accumStep config relName ts acc row).updatables ≠ acc.updatables ↔
      (row.isGenerated = false ∧
        coUpdate (jsColumnOptions config.columnOptions relName row.column) ≠
          some "excluded")) ∧
    (insertablyOptional row (jsColumnOptions config.columnOptions relName row.column) = "?" ↔
      (row.isNullable = true ∨ row.hasDefault = true ∨
        coInsert (jsColumnOptions config.columnOptions relName row.column) =
          some "optional")) ∧
    (∀ s, (accumStep config relName ts acc row).insertables = acc.insertables ++ [s] →
      s = row.column ++
        insertablyOptional row (jsColumnOptions config.columnOptions relName row.column) ++
        ": " ++ (basicInsertableTypesFor config ts row ++ ";")) ∧
    (∀ s, (accumStep config relName ts acc row).updatables = acc.updatables ++ [s] →
      s = row.column ++ "?: " ++
        (basicInsertableTypesFor config ts row ++ " | db.SQLFragment<any, " ++
          basicInsertableTypesFor config ts row ++ ">;")) ∧
    (row.isGenerated = true →
      (accumStep config relName ts acc row).insertables = acc.insertables ∧
      (accumStep config relName ts acc row).updatables = acc.updatables) := by
  refine ⟨by simp [accumStep], by simp [accumStep], ?_, ?_, insertablyOptional_iff row _,
    ?_, ?_, ?_⟩
  · cases hb : isInsertable row (jsColumnOptions config.columnOptions relName row.column) with
    | true =>
      constructor
      · intro _
        exact (isInsertable_iff row _).mp hb
      · intro _
        simp only [accumStep, hb, if_true]
        intro hh
        have := congrArg List.length hh
        simp at this
    | false =>
      constructor
      · intro hne
        exfalso
        apply hne
        simp [accumStep, hb]
      · intro hc
        have := (isInsertable_iff row _).mpr hc
        rw [hb] at this
        cases this
  · cases hb : isUpdatable row (jsColumnOptions config.columnOptions relName row.column) with
    | true =>
      constructor
      · intro _
        exact (isUpdatable_iff row _).mp hb
      · intro _
        simp only [accumStep, hb, if_true]
        intro hh
        have := congrArg List.length hh
        simp at this
    | false =>
      constructor
      · intro hne
        exfalso
        apply hne
        simp [accumStep, hb]
      · intro hc
        have := (isUpdatable_iff row _).mpr hc
        rw [hb] at this
        cases this
  · intro s hs
    cases hb : isInsertable row (jsColumnOptions config.columnOptions relName row.column) with
    | true =>
      simp only [accumStep, hb, if_true] at hs
      have hline := List.append_cancel_left hs
      simp only [List.cons.injEq, and_true] at hline
      rw [← hline]
      simp only [basicInsertableTypesFor]
      rw [resolveType_fst]
      simp [String.append_assoc]
    | false =>
      simp only [accumStep, hb] at hs
      simp at hs
  · intro s hs
    cases hb : isUpdatable row (jsColumnOptions config.columnOptions relName row.column) with
    | true =>
      simp only [accumStep, hb, if_true] at hs
      have hline := List.append_cancel_left hs
      simp only [List.cons.injEq, and_true] at hline
      rw [← hline]
      simp only [basicInsertableTypesFor]
      rw [resolveType_fst]
      simp [String.append_assoc]
    | false =>
      simp only [accumStep, hb] at hs
      simp at hs
  · intro hg
    have hbi : isInsertable row (jsColumnOptions config.columnOptions relName row.column) =
        false := by
      simp [isInsertable, hg]
    have hbu : isUpdatable row (jsColumnOptions config.columnOptions relName row.column) =
        false := by
      simp [isUpdatable, hg]
    constructor
    · simp [accumStep, hbi]
    · simp [accumStep, hbu]

/-- C5 witness: a generated `id` column is absent from the insert- and
update-shapes of a fresh accumulator. -/
theorem role_shape_membership_witness :
    (accumStep cfgPlain "t" tsSimple (emptyAccum []) rowGen).insertables = [] ∧
    (accumStep cfgPlain "t" tsSimple (emptyAccum []) rowGen).updatables = [] := by
  have h := (role_shape_membership cfgPlain "t" tsSimple (emptyAccum []) rowGen).2.2.2.2.2.2.2 rfl
  exact ⟨h.1, h.2⟩

/-- C4 counterexample: when the relation-listing query rejects, the run
aborts after `acquire` without ever emitting `release` — the pool is not
released on this failure path, contradicting the claimed
release-on-every-failure-path behaviour. -/
theorem pool_release_skipped_on_failure_cex :
    (tsForConfig cfgPlain envPlain fcatFailRel).2 = none ∧
    (tsForConfig cfgPlain envPlain fcatFailRel).1 = [Event.acquire, Event.relQuery "s"] ∧
    (tsForConfig cfgPlain envPlain fcatFailRel).1.count Event.release = 0 := by
  refine ⟨?_, ?_, ?_⟩ <;> decide

/-- C4 amended: the pool is acquired exactly once, before any catalog query;
on the success path it is released exactly once, as the final event; on a
failure path the run aborts without releasing the pool. -/
theorem pool_lifecycle (config : CompleteConfig) (env : Env) (fcat : FCatalog) :
    ((tsForConfig config env fcat).1.head? = some Event.acquire) ∧
    ((tsForConfig config env fcat).1.count Event.acquire = 1) ∧
    ((tsForConfig config env fcat).2.isSome = true →
      (tsForConfig config env fcat).1.count Event.release = 1 ∧
      (tsForConfig config env fcat).1.getLast? = some Event.release) ∧
    ((tsForConfig config env fcat).2 = none →
      (tsForConfig config env fcat).1.count Event.release = 0) := by
  have hq := runSchemas_events config env fcat config.schemas []
  unfold tsForConfig
  rcases hrun : runSchemas config env fcat [] config.schemas with ⟨tr, res⟩
  rw [hrun] at hq
  have hnoacq : Event.acquire ∉ tr := fun hm => by
    simpa [Event.isQuery] using hq _ hm
  have hnorel : Event.release ∉ tr := fun hm => by
    simpa [Event.isQuery] using hq _ hm
  cases res with
  | error err =>
    refine ⟨rfl, ?_, ?_, ?_⟩
    · simp [List.count_cons, List.count_eq_zero.mpr hnoacq]
    · intro h
      simp at h
    · intro _
      simp [List.count_cons, List.count_eq_zero.mpr hnorel]
  | ok p =>
    rcases p with ⟨ct, outs⟩
    refine ⟨rfl, ?_, ?_, ?_⟩
    · have h1 : Event.acquire ∉ tr ++ [Event.release] := by
        simp only [List.mem_append, List.mem_singleton]
        rintro (hm | hm)
        · exact hnoacq hm
        · cases hm
      simp [List.count_cons, List.count_eq_zero.mpr h1]
    · intro _
      constructor
      · have h2 : (tr ++ [Event.release]).count Event.release = 1 := by
          rw [List.count_append, List.count_eq_zero.mpr hnorel]
          rfl
        simp [List.count_cons, h2]
      · show (Event.acquire :: (tr ++ [Event.release])).getLast? = some Event.release
        rw [← List.cons_append]
        exact List.getLast?_concat _
    · intro h
      simp at h

/-- C4 amended witness: a fully successful run over an empty schema acquires
first and releases exactly once, at the end. -/
theorem pool_lifecycle_witness :
    (tsForConfig cfgPlain envPlain fcatOK).1.count Event.release = 1 ∧
    (tsForConfig cfgPlain envPlain fcatOK).1.getLast? = some Event.release := by
  have h := pool_lifecycle cfgPlain envPlain fcatOK
  exact h.2.2.1 (by decide)
